import Mathlib

/-!
# Verification of the spinup VM-cluster tool (src/spinup.py)

This file gives a shallow embedding, in Lean 4, of the parts of `spinup.py`
that the specification's claims are about:

* the descriptor parser (`get_machine`, `descriptor_processors` and the
  four `process_*_descriptor` functions);
* the machine-spec serialization used for hypervisor metadata
  (`base64.b64encode (pickle.dumps machine)` and its inverse);
* the cluster registry (`get_current_cluster`) and the `create` command
  (`create_vm`), with hypervisor side effects made explicit as an event
  trace;
* the image-fetch worker (`fetch_image` / `get_image`) with the filesystem
  and the decompressor's exit code as explicit parameters;
* the wait-loop guards of `start_vm` / `shutdown_vm`;
* the SSH public-key stripping step of `create_cloud_config_drive`.

Python exceptions are modelled with `Except String` / `Option`; the process
pool, queues and the hypervisor connection are modelled by explicit state
passing and event lists.  Machine integers do not occur (Python integers
are unbounded), so `Nat` is used directly.
-/

/-! ## Descriptor parser (spinup.py lines 240-313) -/

/-- The machine dictionary as built by `get_machine` (spinup.py line 288):
at parse time it has no `hostname` key yet, which is modelled with an
`Option` that starts out `none`. -/
structure ParsedMachine where
  uuid : String
  name : String
  cluster_id : String
  instance_id : String
  description : String
  os_type : String
  os_variant : String
  memory : Nat
  cpus : Nat
  hostname : Option String
  deriving DecidableEq, Repr

/-- Value of `int(ds)` for a nonempty string of decimal digits. -/
def digitsToNat (ds : List Char) : Nat :=
  ds.foldl (fun acc c => acc * 10 + (c.toNat - '0'.toNat)) 0

/-- Embedding of `re.fullmatch` for the pattern
`(?P<value>\d+)(?P<unit>[KMGT])` (spinup.py line 273): the whole token must
be one or more digits followed by exactly one unit character. -/
def matchMem (desc : String) : Option (Nat × Char) :=
  match desc.data.span Char.isDigit with
  | (d :: ds, [u]) =>
      if u = 'K' ∨ u = 'M' ∨ u = 'G' ∨ u = 'T' then some (digitsToNat (d :: ds), u)
      else none
  | _ => none

/-- Embedding of `re.fullmatch` for `(?P<value>\d+)cpus?` (line 274). -/
def matchCpu (desc : String) : Option Nat :=
  match desc.data.span Char.isDigit with
  | (d :: ds, rest) =>
      if rest = ['c', 'p', 'u'] ∨ rest = ['c', 'p', 'u', 's'] then some (digitsToNat (d :: ds))
      else none
  | _ => none

/-- Embedding of `re.fullmatch` for `(?P<variant>ubuntu|centos|coreos)`
(line 275). -/
def matchOs (desc : String) : Option String :=
  if desc = "ubuntu" ∨ desc = "centos" ∨ desc = "coreos" then some desc else none

/-- ASCII reading of the regex class `\w` (Python also admits further
Unicode word characters; no claim depends on those). -/
def isWordChar (c : Char) : Bool := c.isAlphanum || c = '_'

/-- Embedding of `re.fullmatch` for `:(?P<name>\w+)` (line 276). -/
def matchName (desc : String) : Option String :=
  match desc.data with
  | ':' :: w => if (!w.isEmpty) && w.all isWordChar then some (String.mk w) else none
  | _ => none

/-- The unit-multiplier dictionary of `process_mem_descriptor` (line 245);
a key outside K/M/G/T would raise `KeyError` in Python, modelled as
`none`. -/
def mem_unit_mult (u : Char) : Option Nat :=
  if u = 'K' then some (2 ^ 10)
  else if u = 'M' then some (2 ^ 20)
  else if u = 'G' then some (2 ^ 30)
  else if u = 'T' then some (2 ^ 40)
  else none

/-- spinup.py lines 240-256.  `int(value / 2**20)` is floor division for
the in-range values Python's float arithmetic represents exactly. -/
def process_mem_descriptor (desc : String) (value : Nat) (unit : Option Char)
    (machine : ParsedMachine) : Except String ParsedMachine := do
  let value ← match unit with
    | some u =>
        match mem_unit_mult u with
        | some mult => pure (value * mult)
        | none => Except.error ("KeyError: " ++ String.mk [u])
    | none => pure value
  if value < 2 ^ 20 then
    Except.error ("Too little memory: " ++ desc)
  else
    Except.ok { machine with memory := value / 2 ^ 20 }

/-- spinup.py lines 258-264. -/
def process_cpu_descriptor (_desc : String) (value : Nat)
    (machine : ParsedMachine) : Except String ParsedMachine :=
  if value = 0 then Except.error "Can\x27t have zero CPUs."
  else Except.ok { machine with cpus := value }

/-- spinup.py lines 266-267. -/
def process_os_descriptor (_desc : String) (variant : String)
    (machine : ParsedMachine) : Except String ParsedMachine :=
  Except.ok { machine with os_variant := variant }

/-- spinup.py lines 269-270. -/
def process_name_descriptor (_desc : String) (n : String)
    (machine : ParsedMachine) : Except String ParsedMachine :=
  Except.ok { machine with name := n }

/-- The ordered `descriptor_processors` table (lines 272-277): each entry
matches the token and, on success, yields the processor applied to the
captured groups. -/
def descriptor_processors :
    List (String → Option (ParsedMachine → Except String ParsedMachine)) :=
  [fun desc => (matchMem desc).map
      (fun p machine => process_mem_descriptor desc p.1 (some p.2) machine),
   fun desc => (matchCpu desc).map
      (fun v machine => process_cpu_descriptor desc v machine),
   fun desc => (matchOs desc).map
      (fun v machine => process_os_descriptor desc v machine),
   fun desc => (matchName desc).map
      (fun n machine => process_name_descriptor desc n machine)]

/-- The `for regex, update_func in processors ... break` loop body
(lines 305-309): the first entry whose pattern matches the token. -/
def firstMatch
    (procs : List (String → Option (ParsedMachine → Except String ParsedMachine)))
    (desc : String) : Option (ParsedMachine → Except String ParsedMachine) :=
  match procs with
  | [] => none
  | p :: ps =>
      match p desc with
      | some f => some f
      | none => firstMatch ps desc

/-- One iteration of the outer `for desc in descriptors` loop
(lines 304-311), including the `else: raise` arm. -/
def processToken (desc : String) (machine : ParsedMachine) :
    Except String ParsedMachine :=
  match firstMatch descriptor_processors desc with
  | some update_func => update_func machine
  | none => Except.error ("Invalid descriptor: " ++ desc)

/-- The default machine built at the top of `get_machine`
(lines 283-298); `uuid4` is the value returned by the random
`uuid.uuid4()` call, taken here as a parameter. -/
def default_machine (uuid4 : String) (index : Nat) (path : String) : ParsedMachine :=
  let path := if path.endsWith "/" then String.mk (path.data.dropLast) else path
  let directory_name := String.mk ((path.data.reverse.takeWhile (fun c => c ≠ '/')).reverse)
  let cluster_id := directory_name ++ "-" ++ uuid4
  { uuid := uuid4
    name := "machine-" ++ toString index
    cluster_id := cluster_id
    instance_id := cluster_id ++ "-" ++ toString index
    description := ""
    os_type := "linux"
    os_variant := "ubuntu"
    memory := 1024
    cpus := 1
    hostname := none }

/-- spinup.py lines 279-313. -/
def get_machine (uuid4 : String) (index : Nat) (path : String)
    (descriptors : List String) : Except String ParsedMachine :=
  descriptors.foldlM (fun machine desc => processToken desc machine)
    (default_machine uuid4 index path)

/-! ## Theorems for claims C7, C8, C9 -/

/-- C7: for every token in a descriptor group the patterns are tried in the
fixed priority order memory, cpu, os-variant, name; the first matching
pattern's processor is applied to the token and no later pattern is tried;
a token matching none of the patterns aborts parsing with a fatal error
whose message names that token. -/
theorem descriptor_first_match_wins :
    (∀ desc m v u, matchMem desc = some (v, u) →
      processToken desc m = process_mem_descriptor desc v (some u) m) ∧
    (∀ desc m v, matchMem desc = none → matchCpu desc = some v →
      processToken desc m = process_cpu_descriptor desc v m) ∧
    (∀ desc m var, matchMem desc = none → matchCpu desc = none →
      matchOs desc = some var →
      processToken desc m = process_os_descriptor desc var m) ∧
    (∀ desc m n, matchMem desc = none → matchCpu desc = none →
      matchOs desc = none → matchName desc = some n →
      processToken desc m = process_name_descriptor desc n m) ∧
    (∀ desc m, matchMem desc = none → matchCpu desc = none →
      matchOs desc = none → matchName desc = none →
      processToken desc m = Except.error ("Invalid descriptor: " ++ desc)) := by
  refine ⟨?_, ?_, ?_, ?_, ?_⟩ <;>
    intros <;>
    simp_all [processToken, firstMatch, descriptor_processors]

/-- Witness for C7: the token `%` matches no pattern and parsing fails with
an error naming it. -/
theorem descriptor_first_match_wins_witness :
    processToken "%" (default_machine "u" 1 "/p") =
      Except.error ("Invalid descriptor: " ++ "%") :=
  descriptor_first_match_wins.2.2.2.2 "%" (default_machine "u" 1 "/p")
    (by decide) (by decide) (by decide) (by decide)

/-- C8: a memory token's converted byte value must be at least `2 ^ 20` or
processing fails with a "Too little memory" error; an accepted value is
stored as the whole number of MiB `value / 2 ^ 20`; the value one byte
under 1 MiB is rejected; the token `1M` is accepted and yields
memory = 1 MiB. -/
theorem memory_minimum_spec :
    (∀ desc value u mult machine, mem_unit_mult u = some mult →
      process_mem_descriptor desc value (some u) machine =
        if value * mult < 2 ^ 20 then
          Except.error ("Too little memory: " ++ desc)
        else Except.ok { machine with memory := value * mult / 2 ^ 20 }) ∧
    (∀ desc machine, process_mem_descriptor desc (2 ^ 20 - 1) none machine =
      Except.error ("Too little memory: " ++ desc)) ∧
    (∀ machine, processToken "1M" machine = Except.ok { machine with memory := 1 }) := by
  refine ⟨?_, ?_, ?_⟩
  · intro desc value u mult machine h
    simp [process_mem_descriptor, h]
  · intro desc machine
    simp [process_mem_descriptor]
  · intro machine
    rfl

/-- Witness for C8: the token value `1023K` converts to 1047552 bytes,
which is under 1 MiB and rejected. -/
theorem memory_minimum_spec_witness :
    process_mem_descriptor "1023K" 1023 (some 'K') (default_machine "u" 1 "/p") =
      Except.error ("Too little memory: " ++ "1023K") := by
  have h := memory_minimum_spec.1 "1023K" 1023 'K' 1024
    (default_machine "u" 1 "/p") (by decide)
  simpa using h

/-- C9: the descriptor group `2G 4cpus centos :db1` yields memory =
2048 MiB, cpus = 4, os variant "centos" and name "db1", all other fields
keeping their defaults. -/
theorem example_descriptor_group (uuid4 path : String) (index : Nat) :
    get_machine uuid4 index path ["2G", "4cpus", "centos", ":db1"] =
      Except.ok { default_machine uuid4 index path with
                  memory := 2048, cpus := 4, os_variant := "centos", name := "db1" } := by
  rfl

/-! ## Machine-spec serialization

spinup.py stores each machine in its domain's metadata as
`base64.b64encode(pickle.dumps(machine)).decode()` (line 322) and recovers
it with `pickle.loads(base64.b64decode(pickled_machine))` (line 565).
`pickle` is CPython's serializer, an external collaborator; following its
contract (an opaque, byte-level, round-trip-safe encoding of the machine
dictionary) it is modelled here by an explicit injective byte serializer
over the full machine dictionary.  `base64` is modelled exactly (standard
alphabet, `=` padding). -/

/-- The full machine dictionary as pickled at spinup.py line 322: by then
`get_machine`'s keys have been extended with `hostname` (line 385),
`disk_image` (line 319) and `config_drive` (line 320). -/
structure MachineSpec where
  uuid : String
  name : String
  cluster_id : String
  instance_id : String
  description : String
  os_type : String
  os_variant : String
  memory : Nat
  cpus : Nat
  hostname : String
  disk_image : String
  config_drive : String
  deriving DecidableEq, Repr

/-- Serialize a character list: each element is tagged with byte 1 and laid
out as its code point in four little-endian bytes; byte 0 terminates. -/
def encListChar : List Char → List Nat
  | [] => [0]
  | c :: cs =>
      1 :: c.toNat % 256 :: c.toNat / 256 % 256 :: c.toNat / 65536 % 256 ::
        c.toNat / 16777216 % 256 :: encListChar cs

/-- Reassemble a code point from four little-endian bytes. -/
def charOfBytes (b0 b1 b2 b3 : Nat) : Char :=
  Char.ofNat (b0 % 256 + 256 * (b1 % 256) + 65536 * (b2 % 256) + 16777216 * (b3 % 256))

/-- Parse the encoding produced by `encListChar`, returning the unconsumed
remainder. -/
def decListChar : List Nat → Option (List Char × List Nat)
  | 0 :: rest => some ([], rest)
  | 1 :: b0 :: b1 :: b2 :: b3 :: rest =>
      match decListChar rest with
      | some (cs, rest2) => some (charOfBytes b0 b1 b2 b3 :: cs, rest2)
      | none => none
  | _ => none

theorem charOfBytes_enc (c : Char) :
    charOfBytes (c.toNat % 256) (c.toNat / 256 % 256) (c.toNat / 65536 % 256)
      (c.toNat / 16777216 % 256) = c := by
  have hlt : c.toNat < 4294967296 := UInt32.toNat_lt c.val
  have hval : c.toNat % 256 % 256 + 256 * (c.toNat / 256 % 256 % 256) +
      65536 * (c.toNat / 65536 % 256 % 256) + 16777216 * (c.toNat / 16777216 % 256 % 256) =
      c.toNat := by omega
  rw [charOfBytes, hval, Char.ofNat_toNat]

theorem decListChar_enc (cs : List Char) (r : List Nat) :
    decListChar (encListChar cs ++ r) = some (cs, r) := by
  induction cs with
  | nil => rfl
  | cons c cs ih => simp [encListChar, decListChar, ih, charOfBytes_enc]

/-- Serialize a natural number as tagged little-endian base-256 digits
(Python integers are unbounded, so the digit list is unbounded too). -/
def encNat (n : Nat) : List Nat :=
  if h : n = 0 then [0]
  else 1 :: n % 256 :: encNat (n / 256)
termination_by n
decreasing_by exact Nat.div_lt_self (Nat.pos_of_ne_zero h) (by omega)

/-- Parse the encoding produced by `encNat`. -/
def decNat : List Nat → Option (Nat × List Nat)
  | 0 :: rest => some (0, rest)
  | 1 :: d :: rest =>
      match decNat rest with
      | some (m, rest2) => some (d % 256 + 256 * m, rest2)
      | none => none
  | _ => none

theorem decNat_enc (n : Nat) (r : List Nat) : decNat (encNat n ++ r) = some (n, r) := by
  induction n using Nat.strong_induction_on with
  | _ n ih =>
    rw [encNat]
    split
    · rename_i h; subst h; rfl
    · rename_i h
      have ih2 := ih (n / 256) (Nat.div_lt_self (Nat.pos_of_ne_zero h) (by omega))
      simp [decNat, ih2]
      omega

def encStr (s : String) : List Nat := encListChar s.data

def decStr (bs : List Nat) : Option (String × List Nat) :=
  (decListChar bs).map (fun p => (String.mk p.1, p.2))

theorem decStr_enc (s : String) (r : List Nat) : decStr (encStr s ++ r) = some (s, r) := by
  cases s with
  | mk data => simp [decStr, encStr, decListChar_enc]

theorem decStr_enc_nil (s : String) : decStr (encStr s) = some (s, []) := by
  have h := decStr_enc s []
  simpa using h

theorem decNat_enc_nil (n : Nat) : decNat (encNat n) = some (n, []) := by
  have h := decNat_enc n []
  simpa using h

/-- A pickled dictionary value: the machine dictionary holds strings and
(unbounded) integers. -/
inductive PickleField where
  | fs : String → PickleField
  | fn : Nat → PickleField
  deriving DecidableEq, Repr

/-- Serialize one value with a type tag, as pickle's self-describing
format does. -/
def encField : PickleField → List Nat
  | .fs s => 2 :: encStr s
  | .fn n => 3 :: encNat n

/-- Parse one tagged value. -/
def decField : List Nat → Option (PickleField × List Nat)
  | 2 :: rest => (decStr rest).map (fun p => (PickleField.fs p.1, p.2))
  | 3 :: rest => (decNat rest).map (fun p => (PickleField.fn p.1, p.2))
  | _ => none

theorem decField_enc (f : PickleField) (r : List Nat) :
    decField (encField f ++ r) = some (f, r) := by
  cases f with
  | fs s => simp [encField, decField, decStr_enc]
  | fn n => simp [encField, decField, decNat_enc]

/-- Serialize a sequence of values. -/
def encFields : List PickleField → List Nat
  | [] => []
  | f :: fs => encField f ++ encFields fs

/-- Parse a known number of tagged values. -/
def decFields : Nat → List Nat → Option (List PickleField × List Nat)
  | 0, bs => some ([], bs)
  | k + 1, bs =>
      match decField bs with
      | some (f, r) =>
          match decFields k r with
          | some (fs, r2) => some (f :: fs, r2)
          | none => none
      | none => none

theorem decFields_enc (l : List PickleField) (r : List Nat) :
    decFields l.length (encFields l ++ r) = some (l, r) := by
  induction l with
  | nil => rfl
  | cons f fs ih => simp [encFields, decFields, List.append_assoc, decField_enc, ih]

/-- Model of `pickle.dumps` on the machine dictionary: the twelve fields
serialized in order. -/
def pickleDumps (m : MachineSpec) : List Nat :=
  encFields [.fs m.uuid, .fs m.name, .fs m.cluster_id, .fs m.instance_id,
    .fs m.description, .fs m.os_type, .fs m.os_variant, .fn m.memory, .fn m.cpus,
    .fs m.hostname, .fs m.disk_image, .fs m.config_drive]

/-- Model of `pickle.loads` on such a payload; anything else (a payload
Python would fail on) yields `none`. -/
def pickleLoads (bs : List Nat) : Option MachineSpec :=
  match decFields 12 bs with
  | some ([.fs uuid, .fs nm, .fs cluster_id, .fs instance_id, .fs descr,
           .fs os_type, .fs os_variant, .fn memory, .fn cpus, .fs hostname,
           .fs disk_image, .fs config_drive], []) =>
      some { uuid := uuid, name := nm, cluster_id := cluster_id,
             instance_id := instance_id, description := descr, os_type := os_type,
             os_variant := os_variant, memory := memory, cpus := cpus,
             hostname := hostname, disk_image := disk_image,
             config_drive := config_drive }
  | _ => none

theorem pickle_roundtrip (m : MachineSpec) : pickleLoads (pickleDumps m) = some m := by
  obtain ⟨uuid, nm, cid, iid, de, ot, ov, mem, cp, hn, di, cd⟩ := m
  have h := decFields_enc [.fs uuid, .fs nm, .fs cid, .fs iid, .fs de, .fs ot,
    .fs ov, .fn mem, .fn cp, .fs hn, .fs di, .fs cd] []
  simp only [List.length_cons, List.length_nil, List.append_nil] at h
  norm_num at h
  rw [pickleLoads, pickleDumps]
  simp only [h]

/-- The standard base64 alphabet used by `base64.b64encode`. -/
def b64alphabet : List Char :=
  ['A', 'B', 'C', 'D', 'E', 'F', 'G', 'H', 'I', 'J', 'K', 'L', 'M', 'N', 'O', 'P',
   'Q', 'R', 'S', 'T', 'U', 'V', 'W', 'X', 'Y', 'Z', 'a', 'b', 'c', 'd', 'e', 'f',
   'g', 'h', 'i', 'j', 'k', 'l', 'm', 'n', 'o', 'p', 'q', 'r', 's', 't', 'u', 'v',
   'w', 'x', 'y', 'z', '0', '1', '2', '3', '4', '5', '6', '7', '8', '9', '+', '/']

/-- The alphabet character of a six-bit value. -/
def sextetChar (n : Nat) : Char := b64alphabet.getD n 'A'

def charSextetAux (c : Char) : List Char → Nat → Option Nat
  | [], _ => none
  | a :: rest, i => if a = c then some i else charSextetAux c rest (i + 1)

/-- The six-bit value of an alphabet character. -/
def charSextet (c : Char) : Option Nat := charSextetAux c b64alphabet 0

/-- Base64 encoding of a byte list: three bytes per four characters,
`=`-padded tail. -/
def b64encode : List Nat → List Char
  | [] => []
  | [b1] => [sextetChar (b1 / 4), sextetChar (b1 % 4 * 16), '=', '=']
  | [b1, b2] => [sextetChar (b1 / 4), sextetChar (b1 % 4 * 16 + b2 / 16),
                 sextetChar (b2 % 16 * 4), '=']
  | b1 :: b2 :: b3 :: rest =>
      sextetChar (b1 / 4) :: sextetChar (b1 % 4 * 16 + b2 / 16) ::
        sextetChar (b2 % 16 * 4 + b3 / 64) :: sextetChar (b3 % 64) :: b64encode rest

/-- Base64 decoding, the model of `base64.b64decode`. -/
def b64decode : List Char → Option (List Nat)
  | [] => some []
  | c1 :: c2 :: c3 :: c4 :: rest =>
      if c3 = '=' ∧ c4 = '=' ∧ rest = [] then
        match charSextet c1, charSextet c2 with
        | some s1, some s2 => some [s1 * 4 + s2 / 16]
        | _, _ => none
      else if c4 = '=' ∧ rest = [] then
        match charSextet c1, charSextet c2, charSextet c3 with
        | some s1, some s2, some s3 => some [s1 * 4 + s2 / 16, s2 % 16 * 16 + s3 / 4]
        | _, _, _ => none
      else
        match charSextet c1, charSextet c2, charSextet c3, charSextet c4,
            b64decode rest with
        | some s1, some s2, some s3, some s4, some bs =>
            some ((s1 * 4 + s2 / 16) :: (s2 % 16 * 16 + s3 / 4) :: (s3 % 4 * 64 + s4) :: bs)
        | _, _, _, _, _ => none
  | _ => none

theorem charSextet_sextetChar (s : Nat) (h : s < 64) : charSextet (sextetChar s) = some s := by
  have h64 : ∀ i : Fin 64, charSextet (sextetChar i.val) = some i.val := by decide
  exact h64 ⟨s, h⟩

theorem sextetChar_ne_pad (s : Nat) : sextetChar s ≠ '=' := by
  by_cases h : s < 64
  · have h64 : ∀ i : Fin 64, sextetChar i.val ≠ '=' := by decide
    exact h64 ⟨s, h⟩
  · have hlen : b64alphabet.length = 64 := rfl
    have hd : b64alphabet.getD s 'A' = 'A' := List.getD_eq_default _ _ (by omega)
    simp only [sextetChar, hd]
    decide

theorem b64_roundtrip (bs : List Nat) (h : ∀ b ∈ bs, b < 256) :
    b64decode (b64encode bs) = some bs := by
  induction bs using b64encode.induct with
  | case1 => simp [b64encode, b64decode]
  | case2 b1 =>
    have hb1 : b1 < 256 := h b1 (by simp)
    have h1 := charSextet_sextetChar (b1 / 4) (by omega)
    have h2 := charSextet_sextetChar (b1 % 4 * 16) (by omega)
    simp [b64encode, b64decode, h1, h2]
    omega
  | case3 b1 b2 =>
    have hb1 : b1 < 256 := h b1 (by simp)
    have hb2 : b2 < 256 := h b2 (by simp)
    have h1 := charSextet_sextetChar (b1 / 4) (by omega)
    have h2 := charSextet_sextetChar (b1 % 4 * 16 + b2 / 16) (by omega)
    have h3 := charSextet_sextetChar (b2 % 16 * 4) (by omega)
    have hne := sextetChar_ne_pad (b2 % 16 * 4)
    simp [b64encode, b64decode, h1, h2, h3, hne]
    omega
  | case4 b1 b2 b3 rest ih =>
    have hb1 : b1 < 256 := h b1 (by simp)
    have hb2 : b2 < 256 := h b2 (by simp)
    have hb3 : b3 < 256 := h b3 (by simp)
    have hrest : ∀ b ∈ rest, b < 256 := fun b hb => h b (by simp [hb])
    have h1 := charSextet_sextetChar (b1 / 4) (by omega)
    have h2 := charSextet_sextetChar (b1 % 4 * 16 + b2 / 16) (by omega)
    have h3 := charSextet_sextetChar (b2 % 16 * 4 + b3 / 64) (by omega)
    have h4 := charSextet_sextetChar (b3 % 64) (by omega)
    have hne3 := sextetChar_ne_pad (b2 % 16 * 4 + b3 / 64)
    have hne4 := sextetChar_ne_pad (b3 % 64)
    simp [b64encode, b64decode, h1, h2, h3, h4, hne3, hne4, ih hrest]
    omega

theorem encListChar_lt (cs : List Char) : ∀ b ∈ encListChar cs, b < 256 := by
  induction cs with
  | nil => intro b hb; simp [encListChar] at hb; omega
  | cons c cs ih =>
    intro b hb
    simp only [encListChar, List.mem_cons] at hb
    rcases hb with rfl | rfl | rfl | rfl | rfl | hb
    · omega
    · exact Nat.mod_lt _ (by omega)
    · exact Nat.mod_lt _ (by omega)
    · exact Nat.mod_lt _ (by omega)
    · exact Nat.mod_lt _ (by omega)
    · exact ih b hb

theorem encNat_lt (n : Nat) : ∀ b ∈ encNat n, b < 256 := by
  induction n using Nat.strong_induction_on with
  | _ n ih =>
    intro b hb
    rw [encNat] at hb
    split at hb
    · simp at hb; omega
    · rename_i h
      simp only [List.mem_cons] at hb
      rcases hb with rfl | rfl | hb
      · omega
      · exact Nat.mod_lt _ (by omega)
      · exact ih (n / 256) (Nat.div_lt_self (Nat.pos_of_ne_zero h) (by omega)) b hb

theorem encField_lt (f : PickleField) : ∀ b ∈ encField f, b < 256 := by
  cases f with
  | fs s =>
    intro b hb
    simp only [encField, encStr, List.mem_cons] at hb
    rcases hb with rfl | hb
    · omega
    · exact encListChar_lt _ b hb
  | fn n =>
    intro b hb
    simp only [encField, List.mem_cons] at hb
    rcases hb with rfl | hb
    · omega
    · exact encNat_lt _ b hb

theorem encFields_lt (l : List PickleField) : ∀ b ∈ encFields l, b < 256 := by
  induction l with
  | nil => intro b hb; simp [encFields] at hb
  | cons f fs ih =>
    intro b hb
    simp only [encFields, List.mem_append] at hb
    rcases hb with hb | hb
    · exact encField_lt f b hb
    · exact ih b hb

theorem pickleDumps_lt (m : MachineSpec) : ∀ b ∈ pickleDumps m, b < 256 :=
  fun b hb => encFields_lt _ b hb

/-- spinup.py line 322: `base64.b64encode(pickle.dumps(machine)).decode()`,
the metadata string stored in the domain definition. -/
def encode_machine (m : MachineSpec) : String :=
  String.mk (b64encode (pickleDumps m))

/-- spinup.py line 565: `pickle.loads(base64.b64decode(pickled_machine))`;
a payload either of the external decoders fails on is `none`. -/
def decode_machine (s : String) : Option MachineSpec :=
  (b64decode s.data).bind pickleLoads

theorem decode_encode_machine (m : MachineSpec) :
    decode_machine (encode_machine m) = some m := by
  show (b64decode (b64encode (pickleDumps m))).bind pickleLoads = some m
  rw [b64_roundtrip _ (pickleDumps_lt m)]
  simp [pickle_roundtrip]

/-! ## Theorem for claim C6 -/

/-- C6: encoding a MachineSpec into the opaque metadata representation
(serialize, then base64-encode) and decoding it back (base64-decode, then
deserialize) yields a value identical to the original spec, for every field
combination — in particular for an empty description and non-ASCII
hostnames, since the fields range over all strings. -/
theorem machine_metadata_roundtrip (m : MachineSpec) :
    decode_machine (encode_machine m) = some m :=
  decode_encode_machine m

/-! ## Cluster registry and the create command (spinup.py lines 361-395, 554-569) -/

/-- A domain known to the hypervisor: its name, its spinup metadata block
if any (the `path` and `pickled-machine` element texts), and its current
`virDomainState` code. -/
structure DomainInfo where
  dom_name : String
  metadata : Option (String × String)
  state : Nat
  deriving DecidableEq, Repr

/-- spinup.py lines 554-569.  For each domain the spinup metadata block is
read if present and its `path` element is compared with the caller's source
directory.  Faithful to line 567: `results.append((domain, machine))` sits
outside both `if` bodies, so every domain known to the hypervisor
contributes a pair, with `machine = None` for domains whose metadata is
absent or whose stored path differs from `source_dir`. -/
def get_current_cluster (domains : List DomainInfo) (source_dir : String) :
    List (DomainInfo × Option MachineSpec) :=
  domains.map (fun domain =>
    let machine : Option MachineSpec :=
      match domain.metadata with
      | some (path, pickled_machine) =>
          if path = source_dir then decode_machine pickled_machine else none
      | none => none
    (domain, machine))

/-- Loop of `split_list` (spinup.py lines 361-371) with its accumulating
`part`. -/
def split_list_go (sep : String) : List String → List String → List (List String)
  | [], part => [part]
  | e :: rest, part =>
      if e = sep then part :: split_list_go sep rest []
      else split_list_go sep rest (part ++ [e])

/-- spinup.py lines 361-371. -/
def split_list (l : List String) (sep : String) : List (List String) :=
  split_list_go sep l []

/-- The side effects `create_vm` hands to its process pool: the dedicated
image-fetch worker, one `create_single_vm` work item per machine (image
fetch, artifact creation, domain definition and start), and the sentinel
request that terminates the worker. -/
inductive Effect where
  | fetch_image_worker
  | create_single_vm (path : String) (machine : ParsedMachine)
  | fetch_sentinel
  deriving DecidableEq, Repr

/-- spinup.py lines 373-395, the `create` command.  Returns the result and
the ordered list of side effects issued; every `raise` happens before the
pool is created, which the theorem for C4 records.  `uuidGen i` stands for
the `uuid.uuid4()` drawn while parsing group `i`. -/
def create_vm (domains : List DomainInfo) (uuidGen : Nat → String) (path : String)
    (args : List String) : Except String Unit × List Effect :=
  match (split_list args "--").enum.mapM
      (fun p => get_machine (uuidGen p.1) (p.1 + 1) path p.2) with
  | .error e => (.error e, [])
  | .ok machines =>
      let names := machines.map (fun m => m.name)
      let duplicates := names.dedup.filter (fun n => names.count n > 1)
      if duplicates ≠ [] then
        (.error ("Duplicate names: " ++ String.intercalate ", " duplicates), [])
      else
        let machines := machines.map (fun m => { m with hostname := some m.name })
        let cluster := get_current_cluster domains path
        if cluster ≠ [] then
          (.error "A cluster is already running in this directory.", [])
        else
          (.ok (), Effect.fetch_image_worker ::
            (machines.map (fun m => Effect.create_single_vm path m) ++ [Effect.fetch_sentinel]))

/-! ## Theorems for claims C4 and C1 -/

/-- C4: every validation (token matching, duplicate-name detection,
zero-cpu and sub-minimum-memory rejection inside `get_machine`) and the
existing-cluster check complete before any side effect: whenever
`create_vm` raises, its effect trace is empty — no image fetch, artifact
creation or domain definition has occurred. -/
theorem create_validates_before_effects (domains : List DomainInfo)
    (uuidGen : Nat → String) (path : String) (args : List String) (e : String)
    (h : (create_vm domains uuidGen path args).1 = Except.error e) :
    (create_vm domains uuidGen path args).2 = [] := by
  revert h
  unfold create_vm
  cases hm : (split_list args "--").enum.mapM
      (fun p => get_machine (uuidGen p.1) (p.1 + 1) path p.2) with
  | error e2 => intro h; rfl
  | ok machines =>
      simp only []
      split
      · intro h; rfl
      · split
        · intro h; rfl
        · intro h; simp at h

/-- Witness for C4: duplicate machine names make `create_vm` fail with an
empty effect trace. -/
theorem create_validates_before_effects_witness :
    (create_vm [] (fun _ => "u") "/p" [":web", "--", ":web"]).2 = [] :=
  create_validates_before_effects [] (fun _ => "u") "/p" [":web", "--", ":web"]
    ("Duplicate names: " ++ "web") (by rfl)

/-- A concrete machine spec used to exercise the registry. -/
def sample_machine : MachineSpec :=
  { uuid := "u-1", name := "machine-1", cluster_id := "proj-u-1",
    instance_id := "proj-u-1-1", description := "", os_type := "linux",
    os_variant := "ubuntu", memory := 1024, cpus := 1, hostname := "machine-1",
    disk_image := "/var/lib/spinup/images/proj-u-1-1-disk.img",
    config_drive := "/var/lib/spinup/images/proj-u-1-1-config.iso" }

/-- A domain whose spinup metadata records the source path
`/home/alice/proj`. -/
def alice_domain : DomainInfo :=
  { dom_name := "proj-u-1-machine-1",
    metadata := some ("/home/alice/proj", encode_machine sample_machine),
    state := 1 }

/-- C1 (recording the defect): a cluster created at `/home/alice/proj` is
NOT invisible to a lookup from `/home/bob/other` — because line 567's
`results.append` sits outside the path check, the lookup still returns a
`(domain, None)` pair for Alice's domain, and `create` run at Bob's
(unrelated, cluster-free) directory therefore fails with the
"cluster already running" error.  The lookup at Alice's own path does
return her machine, so re-running create there fails as the claim says. -/
theorem cluster_lookup_not_path_scoped :
    get_current_cluster [alice_domain] "/home/bob/other" = [(alice_domain, none)] ∧
    (create_vm [alice_domain] (fun _ => "u") "/home/bob/other" []).1 =
      Except.error "A cluster is already running in this directory." ∧
    get_current_cluster [alice_domain] "/home/alice/proj" =
      [(alice_domain, some sample_machine)] ∧
    (create_vm [alice_domain] (fun _ => "u") "/home/alice/proj" []).1 =
      Except.error "A cluster is already running in this directory." := by
  refine ⟨rfl, rfl, ?_, rfl⟩
  simp [get_current_cluster, alice_domain, decode_encode_machine]

/-! ## Lifecycle wait loops (spinup.py lines 468-506) -/

def VIR_DOMAIN_RUNNING : Nat := 1

def VIR_DOMAIN_SHUTOFF : Nat := 5

/-- The guard of `shutdown_vm`'s wait loop (spinup.py line 487):
`all(d.state()[0] != libvirt.VIR_DOMAIN_SHUTOFF for d, _ in cluster)`.
The loop sleeps while the guard holds and returns when it first fails. -/
def shutdown_wait_guard (cluster : List (DomainInfo × Option MachineSpec)) : Bool :=
  cluster.all (fun dm => dm.1.state != VIR_DOMAIN_SHUTOFF)

/-- The guard of `start_vm`'s wait loop (spinup.py line 505). -/
def start_wait_guard (cluster : List (DomainInfo × Option MachineSpec)) : Bool :=
  cluster.all (fun dm => dm.1.state != VIR_DOMAIN_RUNNING)

/-- A domain that is shut off. -/
def shut_domain : DomainInfo := { dom_name := "d1", metadata := none, state := 5 }

/-- A domain that is running. -/
def running_domain : DomainInfo := { dom_name := "d2", metadata := none, state := 1 }

/-- C2 (recording the defect): with one targeted domain already shut off
and a second still running, `shutdown_vm`'s wait-loop guard is already
false — the loop terminates immediately although the second domain has not
stopped; symmetrically, `start_vm`'s loop terminates as soon as one domain
runs although the other is still shut off.  The loops block until SOME
targeted domain reaches the desired state, not until every one does. -/
theorem wait_loop_exits_early :
    shutdown_wait_guard [(shut_domain, none), (running_domain, none)] = false ∧
    running_domain.state ≠ VIR_DOMAIN_SHUTOFF ∧
    start_wait_guard [(running_domain, none), (shut_domain, none)] = false ∧
    shut_domain.state ≠ VIR_DOMAIN_RUNNING := by
  refine ⟨rfl, by decide, rfl, by decide⟩

/-! ## Image acquisition (spinup.py lines 171-222) -/

/-- Suffix test on code points, the model of Python's `str.endswith`. -/
def endsWithL (l suf : List Char) : Bool :=
  decide (l.drop (l.length - suf.length) = suf) && decide (suf.length ≤ l.length)

/-- The (canonical local filename, URL basename) table of `fetch_image`
(spinup.py lines 179-193); the URL basename is
`os.path.split(yarl.URL(url).path)[1]`.  For a pair outside the table
Python's `filename` would be unbound (or stale from a previous iteration)
— a worker fault, modelled as `none`; the parser only ever produces pairs
in the table.  The constant directory prefix `BASE_IMAGE_DIR` is elided
from paths. -/
def image_table (os_type os_variant : String) : Option (String × String) :=
  if os_type = "linux" then
    if os_variant = "ubuntu" then
      some ("ubuntu-16.04-server-cloudimg-amd64-disk1.img",
            "ubuntu-16.04-server-cloudimg-amd64-disk1.img")
    else if os_variant = "centos" then
      some ("CentOS-7-x86_64-GenericCloud-1503.qcow2",
            "CentOS-7-x86_64-GenericCloud-1503.qcow2.xz")
    else if os_variant = "coreos" then
      some ("coreos_production_qemu_image.img",
            "coreos_production_qemu_image.img.bz2")
    else none
  else none

/-- The file a successful decompression leaves behind for a downloaded
`target_filename` (lines 204-212): `unxz` / `gunzip` / `bunzip2` strip the
compression extension; any other file keeps its name. -/
def decompressed_name (target_filename : String) : String :=
  if endsWithL target_filename.data ".xz".data then
    String.mk (target_filename.data.take (target_filename.data.length - 3))
  else if endsWithL target_filename.data ".gz".data then
    String.mk (target_filename.data.take (target_filename.data.length - 3))
  else if endsWithL target_filename.data ".bz2".data then
    String.mk (target_filename.data.take (target_filename.data.length - 4))
  else target_filename

/-- Whether lines 204-212 invoke a decompressor at all. -/
def needs_decompress (target_filename : String) : Bool :=
  endsWithL target_filename.data ".xz".data ||
    endsWithL target_filename.data ".gz".data ||
    endsWithL target_filename.data ".bz2".data

/-- The externals of a worker run: the exit code the decompressor returns
for a given downloaded file (the download itself is assumed to deliver). -/
structure FetchEnv where
  decompress_code : String → Nat

/-- Observable actions of the worker: a network fetch for a request pair,
and the publication of a resolved path on the shared result queue. -/
inductive FetchEvent where
  | fetch (os_type os_variant : String)
  | respond (path : String)
  deriving DecidableEq, Repr

/-- One iteration of the worker loop of `fetch_image` (lines 175-218),
serving a single request: the events it performs, together with either the
updated set of files present in `BASE_IMAGE_DIR` or the message of the
exception the worker dies with.  If the canonical file exists the network
is skipped entirely; otherwise the image is downloaded and, when the URL
basename carries a compression extension, decompressed — a non-zero
decompressor exit raising before anything is published. -/
def handle_fetch_request (env : FetchEnv) (fs : List String)
    (os_type os_variant : String) : List FetchEvent × Except String (List String) :=
  match image_table os_type os_variant with
  | none => ([], Except.error "NameError: filename")
  | some (filename, target_filename) =>
      if filename ∈ fs then
        ([FetchEvent.respond filename], Except.ok fs)
      else
        if needs_decompress target_filename ∧ env.decompress_code target_filename ≠ 0 then
          ([FetchEvent.fetch os_type os_variant], Except.error "Error decompressing image:")
        else
          ([FetchEvent.fetch os_type os_variant, FetchEvent.respond filename],
            Except.ok (decompressed_name target_filename :: fs))

/-- The worker loop of `fetch_image`: serves queued requests in order until
the `(None, None)` sentinel, the end of the queue, or an uncaught
exception (whose message is returned alongside the events so far). -/
def fetch_image (env : FetchEnv) :
    List String → List (Option (String × String)) → List FetchEvent × Option String
  | _, [] => ([], none)
  | _, none :: _ => ([], none)
  | fs, some (os_type, os_variant) :: rest =>
      match handle_fetch_request env fs os_type os_variant with
      | (evs, Except.error e) => (evs, some e)
      | (evs, Except.ok fs2) =>
          let r := fetch_image env fs2 rest
          (evs ++ r.1, r.2)

/-- spinup.py lines 220-222: each caller of `get_image` submits a request
and blocks on the shared result queue; the messages available to blocked
callers during a run are the worker's `respond` events. -/
def worker_responses (run : List FetchEvent × Option String) : List String :=
  run.1.filterMap (fun ev => match ev with
    | FetchEvent.respond p => some p
    | FetchEvent.fetch _ _ => none)

theorem image_table_decompressed (t v filename target_filename : String)
    (h : image_table t v = some (filename, target_filename)) :
    decompressed_name target_filename = filename := by
  unfold image_table at h
  split at h
  · split at h
    · simp at h
      obtain ⟨h1, h2⟩ := h
      subst h1; subst h2
      decide
    · split at h
      · simp at h
        obtain ⟨h1, h2⟩ := h
        subst h1; subst h2
        decide
      · split at h
        · simp at h
          obtain ⟨h1, h2⟩ := h
          subst h1; subst h2
          decide
        · simp at h
  · simp at h

theorem handle_fetch_skip (env : FetchEnv) (fs : List String)
    (t v filename target_filename : String)
    (htab : image_table t v = some (filename, target_filename))
    (hmem : filename ∈ fs) :
    handle_fetch_request env fs t v = ([FetchEvent.respond filename], Except.ok fs) := by
  unfold handle_fetch_request
  rw [htab]
  simp [hmem]

theorem handle_fetch_mono (env : FetchEnv) (fs : List String) (t v : String)
    (fs2 : List String)
    (h : (handle_fetch_request env fs t v).2 = Except.ok fs2) : fs ⊆ fs2 := by
  unfold handle_fetch_request at h
  split at h
  · simp at h
  · split at h
    · simp at h
      subst h
      exact fun x hx => hx
    · split at h
      · simp at h
      · simp at h
        subst h
        exact fun x hx => List.mem_cons_of_mem _ hx

theorem handle_count_fetch_ne (env : FetchEnv) (fs : List String)
    (t v t2 v2 : String) (hpair : ¬(t2 = t ∧ v2 = v)) :
    (handle_fetch_request env fs t2 v2).1.count (FetchEvent.fetch t v) = 0 := by
  rw [List.count_eq_zero]
  intro hmem
  unfold handle_fetch_request at hmem
  split at hmem
  · simp at hmem
  · split at hmem
    · simp at hmem
    · split at hmem
      · simp at hmem
        exact hpair ⟨hmem.1.symm, hmem.2.symm⟩
      · simp at hmem
        exact hpair ⟨hmem.1.symm, hmem.2.symm⟩

theorem handle_fetch_miss (env : FetchEnv) (fs : List String)
    (t v filename target_filename : String)
    (htab : image_table t v = some (filename, target_filename))
    (hmem : filename ∉ fs) :
    handle_fetch_request env fs t v =
      if needs_decompress target_filename ∧ env.decompress_code target_filename ≠ 0 then
        ([FetchEvent.fetch t v], Except.error "Error decompressing image:")
      else ([FetchEvent.fetch t v, FetchEvent.respond filename],
        Except.ok (decompressed_name target_filename :: fs)) := by
  unfold handle_fetch_request
  rw [htab]
  simp [hmem]

theorem handle_count_le_one (env : FetchEnv) (fs : List String) (t v t2 v2 : String) :
    (handle_fetch_request env fs t2 v2).1.count (FetchEvent.fetch t v) ≤ 1 := by
  by_cases hpair : t2 = t ∧ v2 = v
  · obtain ⟨rfl, rfl⟩ := hpair
    rcases htab : image_table t2 v2 with _ | ⟨filename, target_filename⟩
    · unfold handle_fetch_request
      rw [htab]
      simp
    · by_cases hmem : filename ∈ fs
      · rw [handle_fetch_skip env fs t2 v2 filename target_filename htab hmem]
        simp [List.count_cons]
      · rw [handle_fetch_miss env fs t2 v2 filename target_filename htab hmem]
        split
        · simp [List.count_cons]
        · simp [List.count_cons]
  · rw [handle_count_fetch_ne env fs t v t2 v2 hpair]
    omega

theorem handle_count_fetch_eq_zero (env : FetchEnv) (fs : List String)
    (t v t2 v2 filename target_filename : String)
    (htab : image_table t v = some (filename, target_filename))
    (hmem : filename ∈ fs) :
    (handle_fetch_request env fs t2 v2).1.count (FetchEvent.fetch t v) = 0 := by
  by_cases hpair : t2 = t ∧ v2 = v
  · obtain ⟨rfl, rfl⟩ := hpair
    rw [handle_fetch_skip env fs t2 v2 filename target_filename htab hmem]
    simp [List.count_cons]
  · exact handle_count_fetch_ne env fs t v t2 v2 hpair

theorem fetch_image_cons_error (env : FetchEnv) (fs : List String) (t v : String)
    (evs : List FetchEvent) (e : String) (rest : List (Option (String × String)))
    (h : handle_fetch_request env fs t v = (evs, Except.error e)) :
    fetch_image env fs (some (t, v) :: rest) = (evs, some e) := by
  simp only [fetch_image]
  rw [h]

theorem fetch_image_cons_ok (env : FetchEnv) (fs fs2 : List String) (t v : String)
    (evs : List FetchEvent) (rest : List (Option (String × String)))
    (h : handle_fetch_request env fs t v = (evs, Except.ok fs2)) :
    fetch_image env fs (some (t, v) :: rest) =
      (evs ++ (fetch_image env fs2 rest).1, (fetch_image env fs2 rest).2) := by
  simp only [fetch_image]
  rw [h]

theorem fetch_count_zero_of_mem (env : FetchEnv) (t v filename target_filename : String)
    (htab : image_table t v = some (filename, target_filename)) :
    ∀ (reqs : List (Option (String × String))) (fs : List String), filename ∈ fs →
      (fetch_image env fs reqs).1.count (FetchEvent.fetch t v) = 0 := by
  intro reqs
  induction reqs with
  | nil => intro fs _; rfl
  | cons req rest ih =>
    intro fs hmem
    rcases req with _ | ⟨t2, v2⟩
    · rfl
    · rcases hh : handle_fetch_request env fs t2 v2 with ⟨evs, r⟩
      have hevs : evs.count (FetchEvent.fetch t v) = 0 := by
        have h0 := handle_count_fetch_eq_zero env fs t v t2 v2 filename target_filename htab hmem
        rw [hh] at h0
        exact h0
      cases r with
      | error e =>
        rw [fetch_image_cons_error env fs t2 v2 evs e rest hh]
        exact hevs
      | ok fs2 =>
        have hsub : fs ⊆ fs2 := by
          apply handle_fetch_mono env fs t2 v2 fs2
          rw [hh]
        rw [fetch_image_cons_ok env fs fs2 t2 v2 evs rest hh]
        simp [List.count_append, hevs, ih fs2 (hsub hmem)]

theorem fetch_count_le_one (env : FetchEnv) (t v : String) :
    ∀ (reqs : List (Option (String × String))) (fs : List String),
      (fetch_image env fs reqs).1.count (FetchEvent.fetch t v) ≤ 1 := by
  intro reqs
  induction reqs with
  | nil => intro fs; simp [fetch_image]
  | cons req rest ih =>
    intro fs
    rcases req with _ | ⟨t2, v2⟩
    · simp [fetch_image]
    · rcases hh : handle_fetch_request env fs t2 v2 with ⟨evs, r⟩
      cases r with
      | error e =>
        rw [fetch_image_cons_error env fs t2 v2 evs e rest hh]
        have hle := handle_count_le_one env fs t v t2 v2
        rw [hh] at hle
        simpa using hle
      | ok fs2 =>
        rw [fetch_image_cons_ok env fs fs2 t2 v2 evs rest hh]
        by_cases hpair : t2 = t ∧ v2 = v
        · obtain ⟨rfl, rfl⟩ := hpair
          rcases htab : image_table t2 v2 with _ | ⟨filename, target_filename⟩
          · exfalso
            unfold handle_fetch_request at hh
            rw [htab] at hh
            simp at hh
          · by_cases hmem : filename ∈ fs
            · have hpe := (handle_fetch_skip env fs t2 v2 filename target_filename
                htab hmem).symm.trans hh
              injection hpe with h1 h2
              injection h2 with h2
              subst h1
              subst h2
              have hz := fetch_count_zero_of_mem env t2 v2 filename target_filename htab
                rest fs hmem
              simp [List.count_append, List.count_cons, hz]
            · rw [handle_fetch_miss env fs t2 v2 filename target_filename htab hmem] at hh
              split at hh
              · exact absurd (congrArg Prod.snd hh) (by simp)
              · injection hh with h1 h2
                injection h2 with h2
                subst h1
                subst h2
                have hmem2 : filename ∈ decompressed_name target_filename :: fs := by
                  rw [image_table_decompressed t2 v2 filename target_filename htab]
                  exact List.mem_cons_self _ _
                have hz := fetch_count_zero_of_mem env t2 v2 filename target_filename htab
                  rest _ hmem2
                simp [List.count_append, List.count_cons, hz]
        · have hevs0 := handle_count_fetch_ne env fs t v t2 v2 hpair
          rw [hh] at hevs0
          have hrec := ih fs2
          simp only [List.count_append]
          simp at hevs0
          omega

/-! ## Theorems for claims C5 and C3 -/

/-- C5: within one invocation the single worker serves requests one at a
time and at most one network fetch occurs per distinct (os type,
os variant) pair, regardless of how many requests are served and of the
initial cache state; when the canonical local file already exists the
worker skips the network entirely and just publishes the path; and every
path published while serving a request for a pair is that pair's canonical
filename, so every `get_image` caller for the pair receives the same
resolved local path. -/
theorem image_fetch_at_most_once :
    (∀ (env : FetchEnv) (fs : List String) (reqs : List (Option (String × String)))
      (t v : String),
      (fetch_image env fs reqs).1.count (FetchEvent.fetch t v) ≤ 1) ∧
    (∀ (env : FetchEnv) (fs : List String) (t v filename target_filename : String),
      image_table t v = some (filename, target_filename) → filename ∈ fs →
      handle_fetch_request env fs t v = ([FetchEvent.respond filename], Except.ok fs)) ∧
    (∀ (env : FetchEnv) (fs : List String) (t v p : String),
      FetchEvent.respond p ∈ (handle_fetch_request env fs t v).1 →
      ∃ target_filename, image_table t v = some (p, target_filename)) := by
  refine ⟨fun env fs reqs t v => fetch_count_le_one env t v reqs fs,
    fun env fs t v f tf htab hmem => handle_fetch_skip env fs t v f tf htab hmem, ?_⟩
  intro env fs t v p hmem
  unfold handle_fetch_request at hmem
  split at hmem
  · simp at hmem
  · rename_i filename target_filename heq
    split at hmem
    · simp at hmem
      subst hmem
      exact ⟨_, heq⟩
    · split at hmem
      · simp at hmem
      · simp at hmem
        subst hmem
        exact ⟨_, heq⟩

/-- Witness for C5: with the CentOS image already cached, the worker skips
the network and publishes the cached path. -/
theorem image_fetch_at_most_once_witness :
    handle_fetch_request ⟨fun _ => 0⟩ ["CentOS-7-x86_64-GenericCloud-1503.qcow2"]
        "linux" "centos" =
      ([FetchEvent.respond "CentOS-7-x86_64-GenericCloud-1503.qcow2"],
        Except.ok ["CentOS-7-x86_64-GenericCloud-1503.qcow2"]) :=
  image_fetch_at_most_once.2.1 ⟨fun _ => 0⟩ _ "linux" "centos"
    "CentOS-7-x86_64-GenericCloud-1503.qcow2"
    "CentOS-7-x86_64-GenericCloud-1503.qcow2.xz" rfl (by simp)

/-- An environment whose decompressor always exits 1. -/
def failing_env : FetchEnv := ⟨fun _ => 1⟩

/-- C3 counterexample: with no cached file and a decompressor that exits
non-zero, the worker run for a centos request performs the fetch and dies
with the decompression error WITHOUT publishing anything on the result
queue — the caller blocked in `get_image` for that request has no message
to receive (it blocks forever) rather than observing the error. -/
theorem decompress_error_not_surfaced :
    fetch_image failing_env [] [some ("linux", "centos")] =
      ([FetchEvent.fetch "linux" "centos"], some "Error decompressing image:") ∧
    worker_responses (fetch_image failing_env [] [some ("linux", "centos")]) = [] :=
  ⟨rfl, rfl⟩

/-- C3 amended: a non-zero decompressor exit is fatal to the fetch worker
but is NOT surfaced to callers: serving a request whose canonical file is
absent and whose decompressor exits non-zero makes the worker die with the
decompression error right after the fetch, publishing no result — and no
result is ever published for the requests still queued behind it either,
so every caller still blocked in `get_image` waits forever instead of
observing the error or receiving a path. -/
theorem decompress_error_fatal_unsurfaced (env : FetchEnv) (fs : List String)
    (t v filename target_filename : String)
    (htab : image_table t v = some (filename, target_filename))
    (habs : filename ∉ fs)
    (hdec : needs_decompress target_filename = true)
    (hcode : env.decompress_code target_filename ≠ 0) :
    ∀ more, fetch_image env fs (some (t, v) :: more) =
        ([FetchEvent.fetch t v], some "Error decompressing image:") ∧
      worker_responses (fetch_image env fs (some (t, v) :: more)) = [] := by
  intro more
  have hmiss := handle_fetch_miss env fs t v filename target_filename htab habs
  rw [if_pos ⟨hdec, hcode⟩] at hmiss
  have hrun := fetch_image_cons_error env fs t v [FetchEvent.fetch t v]
    "Error decompressing image:" more hmiss
  rw [hrun]
  exact ⟨rfl, rfl⟩

/-- Witness for the amended C3 statement, at the concrete centos request. -/
theorem decompress_error_fatal_unsurfaced_witness :
    fetch_image failing_env [] (some ("linux", "centos") :: [some ("linux", "ubuntu")]) =
        ([FetchEvent.fetch "linux" "centos"], some "Error decompressing image:") ∧
      worker_responses (fetch_image failing_env []
        (some ("linux", "centos") :: [some ("linux", "ubuntu")])) = [] :=
  decompress_error_fatal_unsurfaced failing_env [] "linux" "centos"
    "CentOS-7-x86_64-GenericCloud-1503.qcow2"
    "CentOS-7-x86_64-GenericCloud-1503.qcow2.xz"
    rfl (by simp) (by decide) (by decide) [some ("linux", "ubuntu")]

/-! ## SSH public-key stripping (spinup.py lines 104-111) -/

/-- Python's `str.strip` whitespace class (the ASCII part). -/
def isPySpace (c : Char) : Bool :=
  c = ' ' || c = '\t' || c = '\n' || c = '\r' || c = '\x0b' || c = '\x0c'

/-- Remove the trailing characters satisfying `p`. -/
def rstripL (p : Char → Bool) : List Char → List Char
  | [] => []
  | c :: rest =>
      match rstripL p rest with
      | [] => if p c then [] else [c]
      | r => c :: r

/-- Python's `str.strip()`: remove leading and trailing whitespace. -/
def pyStrip (l : List Char) : List Char := rstripL isPySpace (l.dropWhile isPySpace)

/-- Python's `str.index(' ')`: the position of the first space, or `none`
where Python raises `ValueError`. -/
def indexOfSpace : List Char → Option Nat
  | [] => none
  | c :: rest => if c = ' ' then some 0 else (indexOfSpace rest).map (fun i => i + 1)

/-- spinup.py lines 109-111, the successive reassignments of `public_key`
starting from the key file's content: line 109 strips the content; line
110 takes everything after the first space (ValueError if none); line 111
strips that remainder but cuts it at the index of the first space OF THE
UNSTRIPPED remainder (ValueError if none). -/
def strip_public_key (content : List Char) : Option (List Char) :=
  let pk1 := pyStrip content
  match indexOfSpace pk1 with
  | none => none
  | some i =>
      let pk2 := (pyStrip pk1).drop (i + 1)
      match indexOfSpace pk2 with
      | none => none
      | some j => some ((pyStrip pk2).take j)

/-- The claim's reading of the extraction: the substring of the stripped
content strictly between its first space and the next following space;
`none` when the stripped content holds fewer than two spaces. -/
def between_first_two_spaces (content : List Char) : Option (List Char) :=
  let t := pyStrip content
  match indexOfSpace t with
  | none => none
  | some i =>
      let rest := t.drop (i + 1)
      match indexOfSpace rest with
      | none => none
      | some j => some (rest.take j)

theorem rstripL_append_singleton (p : Char → Bool) (l : List Char) (c : Char) :
    rstripL p (l ++ [c]) = if p c then rstripL p l else l ++ [c] := by
  induction l with
  | nil => rfl
  | cons a l ih =>
    show (match rstripL p (l ++ [c]) with
      | [] => if p a then [] else [a]
      | r => a :: r) = _
    rw [ih]
    by_cases hc : p c
    · rw [if_pos hc, if_pos hc]
      rfl
    · rw [if_neg hc, if_neg hc]
      cases l <;> rfl

theorem rstripL_getLast (p : Char → Bool) (l : List Char) :
    ∀ c, (rstripL p l).getLast? = some c → p c = false := by
  induction l using List.reverseRecOn with
  | nil => intro c h; simp [rstripL] at h
  | append_singleton l d ih =>
    intro c h
    rw [rstripL_append_singleton] at h
    by_cases hd : p d
    · rw [if_pos hd] at h
      exact ih c h
    · rw [if_neg hd] at h
      rw [List.getLast?_concat] at h
      injection h with h
      subst h
      simpa using hd

theorem rstripL_eq_self (p : Char → Bool) (l : List Char)
    (h : ∀ c, l.getLast? = some c → p c = false) : rstripL p l = l := by
  induction l using List.reverseRecOn with
  | nil => rfl
  | append_singleton l d ih =>
    have hd : p d = false := h d (List.getLast?_concat ..)
    rw [rstripL_append_singleton, hd]
    simp

theorem head_dropWhile_false (p : Char → Bool) (l : List Char) :
    ∀ c, (l.dropWhile p).head? = some c → p c = false := by
  induction l with
  | nil => intro c h; simp [List.dropWhile] at h
  | cons a l ih =>
    intro c h
    rw [List.dropWhile_cons] at h
    by_cases ha : p a
    · rw [if_pos ha] at h
      exact ih c h
    · rw [if_neg ha] at h
      injection h with h
      subst h
      simpa using ha

theorem dropWhile_eq_self (p : Char → Bool) (l : List Char)
    (h : ∀ c, l.head? = some c → p c = false) : l.dropWhile p = l := by
  cases l with
  | nil => rfl
  | cons a l =>
    rw [List.dropWhile_cons, h a rfl]
    simp

theorem rstripL_take_shape (p : Char → Bool) (l : List Char) :
    ∃ n, n ≤ l.length ∧ rstripL p l = l.take n := by
  induction l using List.reverseRecOn with
  | nil => exact ⟨0, by simp, rfl⟩
  | append_singleton l d ih =>
    obtain ⟨n, hn, hl⟩ := ih
    rw [rstripL_append_singleton]
    by_cases hd : p d
    · refine ⟨n, by simp; omega, ?_⟩
      rw [if_pos hd, hl, List.take_append_of_le_length hn]
    · exact ⟨l.length + 1, by simp, by rw [if_neg hd]; simp⟩

theorem head_take (l : List Char) (n : Nat) :
    ∀ c, (l.take n).head? = some c → l.head? = some c := by
  intro c h
  cases l with
  | nil => simp at h
  | cons a l =>
    cases n with
    | zero => simp at h
    | succ n => simpa using h

theorem pyStrip_head (l : List Char) :
    ∀ c, (pyStrip l).head? = some c → isPySpace c = false := by
  intro c h
  obtain ⟨n, _, hshape⟩ := rstripL_take_shape isPySpace (l.dropWhile isPySpace)
  rw [pyStrip, hshape] at h
  exact head_dropWhile_false isPySpace l c (head_take _ n c h)

theorem pyStrip_getLast (l : List Char) :
    ∀ c, (pyStrip l).getLast? = some c → isPySpace c = false :=
  fun c h => rstripL_getLast isPySpace (l.dropWhile isPySpace) c h

theorem pyStrip_idem (l : List Char) : pyStrip (pyStrip l) = pyStrip l := by
  show rstripL isPySpace ((pyStrip l).dropWhile isPySpace) = pyStrip l
  rw [dropWhile_eq_self isPySpace (pyStrip l) (pyStrip_head l)]
  exact rstripL_eq_self isPySpace (pyStrip l) (pyStrip_getLast l)

theorem getLast_drop (l : List Char) (k : Nat) :
    ∀ c, (l.drop k).getLast? = some c → l.getLast? = some c := by
  induction l generalizing k with
  | nil => intro c h; simp at h
  | cons a l ih =>
    intro c h
    cases k with
    | zero => exact h
    | succ k =>
      rw [List.drop_succ_cons] at h
      have hl : l.getLast? = some c := ih k c h
      have hne : l ≠ [] := by
        intro hnil
        rw [hnil] at hl
        simp at hl
      cases l with
      | nil => exact absurd rfl hne
      | cons b l => rw [List.getLast?_cons_cons]; exact hl

theorem indexOfSpace_eq_none_iff (l : List Char) :
    indexOfSpace l = none ↔ ' ' ∉ l := by
  induction l with
  | nil => simp [indexOfSpace]
  | cons a l ih =>
    rw [indexOfSpace]
    by_cases ha : a = ' '
    · subst ha
      simp
    · rw [if_neg ha]
      simp [Option.map_eq_none', ih]
      intro h
      exact fun hc => ha hc.symm

theorem indexOfSpace_take_count (l : List Char) :
    ∀ i, indexOfSpace l = some i → 1 ≤ (l.take (i + 1)).count ' ' := by
  induction l with
  | nil => intro i h; simp [indexOfSpace] at h
  | cons a l ih =>
    intro i h
    rw [indexOfSpace] at h
    by_cases ha : a = ' '
    · subst ha
      rw [if_pos rfl] at h
      injection h with h
      subst h
      simp [List.count_cons]
    · rw [if_neg ha] at h
      rcases Option.map_eq_some'.mp h with ⟨i2, hi2, hplus⟩
      subst hplus
      rw [List.take_succ_cons, List.count_cons]
      have := ih i2 hi2
      omega

/-! ## Theorems for claim C10 -/

/-- C10 counterexample: for the key-file content `"a \t b"` (a tab right
after the first space), the code extracts `"b"` while the substring
between the first space and the next following space of the stripped
content is `"\t"` — the extraction is NOT always that substring. -/
theorem strip_public_key_counterexample :
    strip_public_key "a \t b".data = some "b".data ∧
    between_first_two_spaces "a \t b".data = some "\t".data ∧
    some "b".data ≠ some "\t".data := by
  refine ⟨by decide, by decide, by decide⟩

/-- The benign-input condition under which line 111's strip-then-cut
coincides with the between-spaces reading: after the first space of the
stripped content, the remainder does not begin with non-space
whitespace. -/
def benign_after_first_space (content : List Char) : Bool :=
  match indexOfSpace (pyStrip content) with
  | none => true
  | some i =>
      match ((pyStrip content).drop (i + 1)).head? with
      | none => true
      | some c => c == ' ' || !isPySpace c

/-- C10 amended: (1) whenever the stripped content holds fewer than two
spaces, config-drive creation fails with an error instead of producing a
user-data document — this part of the claim holds unconditionally; and
(2) the extracted key is exactly the substring between the first space and
the next following space of the stripped content provided the remainder
after the first space does not begin with non-space whitespace (true of
well-formed key files); the counterexample shows this proviso cannot be
dropped. -/
theorem strip_public_key_spec :
    (∀ content : List Char, (pyStrip content).count ' ' < 2 →
      strip_public_key content = none) ∧
    (∀ content : List Char, benign_after_first_space content = true →
      strip_public_key content = between_first_two_spaces content) := by
  constructor
  · intro content hcount
    rcases hi : indexOfSpace (pyStrip content) with _ | i
    · simp [strip_public_key, hi]
    · have h1 := indexOfSpace_take_count (pyStrip content) i hi
      have hsplit : ((pyStrip content).take (i + 1)).count ' ' +
          ((pyStrip content).drop (i + 1)).count ' ' = (pyStrip content).count ' ' := by
        rw [← List.count_append, List.take_append_drop]
      have h0 : ((pyStrip content).drop (i + 1)).count ' ' = 0 := by omega
      have hnos : ' ' ∉ (pyStrip content).drop (i + 1) := by
        rw [← List.count_eq_zero]
        exact h0
      have hj : indexOfSpace ((pyStrip (pyStrip content)).drop (i + 1)) = none := by
        rw [pyStrip_idem]
        exact (indexOfSpace_eq_none_iff _).mpr hnos
      simp [strip_public_key, hi, hj]
  · intro content hb
    rcases hi : indexOfSpace (pyStrip content) with _ | i
    · simp [strip_public_key, between_first_two_spaces, hi]
    · rcases hj : indexOfSpace ((pyStrip content).drop (i + 1)) with _ | j
      · have hj2 : indexOfSpace ((pyStrip (pyStrip content)).drop (i + 1)) = none := by
          rw [pyStrip_idem]; exact hj
        simp [strip_public_key, between_first_two_spaces, hi, hj, hj2]
      · have hj2 : indexOfSpace ((pyStrip (pyStrip content)).drop (i + 1)) = some j := by
          rw [pyStrip_idem]; exact hj
        simp only [strip_public_key, between_first_two_spaces, hi, hj, hj2, pyStrip_idem]
        have hmatch : benign_after_first_space content =
            (match ((pyStrip content).drop (i + 1)).head? with
             | none => true
             | some c => c == ' ' || !isPySpace c) := by
          unfold benign_after_first_space
          rw [hi]
        rw [hmatch] at hb
        rcases hS : (pyStrip content).drop (i + 1) with _ | ⟨c, S2⟩
        · rw [hS] at hj
          simp [indexOfSpace] at hj
        · rw [hS] at hb
          simp only [List.head?_cons] at hb
          rcases Bool.or_eq_true_iff.mp hb with hsp | hnw
          · have hc : c = ' ' := by simpa using hsp
            subst hc
            rw [hS] at hj
            rw [indexOfSpace, if_pos rfl] at hj
            injection hj with hj
            subst hj
            simp
          · have hnws : isPySpace c = false := by simpa using hnw
            have hdw : (c :: S2).dropWhile isPySpace = c :: S2 :=
              dropWhile_eq_self isPySpace (c :: S2)
                (fun d hd => by injection hd with hd; subst hd; exact hnws)
            have hlast : ∀ d, (c :: S2).getLast? = some d → isPySpace d = false := by
              intro d hd
              apply pyStrip_getLast content d
              apply getLast_drop (pyStrip content) (i + 1) d
              rw [hS]
              exact hd
            have hps : pyStrip (c :: S2) = c :: S2 := by
              rw [pyStrip, hdw]
              exact rstripL_eq_self isPySpace (c :: S2) hlast
            rw [hps]

/-- Witness for the amended C10 statement: on a well-formed key line the
extraction equals the substring between the first two spaces (here the
key body), and a one-space content is rejected. -/
theorem strip_public_key_spec_witness :
    strip_public_key "ssh-rsa AAAB user@host".data =
      between_first_two_spaces "ssh-rsa AAAB user@host".data ∧
    strip_public_key "ssh-rsa AAAB".data = none :=
  ⟨strip_public_key_spec.2 "ssh-rsa AAAB user@host".data (by decide),
   strip_public_key_spec.1 "ssh-rsa AAAB".data (by decide)⟩
